import Mathlib

/-!
Verification development for the dmOverlay plugin (overlay window registry and
layout manager, HTML escaping, nonce generation, send-variant fallback).

The definitions below are a shallow embedding of the TypeScript sources:
types.ts supplies the constants and record shapes, the main process module
supplies the registry (a JS `Map` keyed by channel id, modelled as an
insertion-ordered association list), the layout pass, the resize handler and
the close operations, template.ts supplies the HTML escaping, and the renderer
module supplies the nonce generator and the multi-variant send fallback.
JS strings are modelled as `String` (or `List Char` for the character-level
escaping functions), JS numbers as `Int` where the source only ever holds
integers and as `Rat` where fractional values can occur, and JS `Map`
iteration order as list order.
-/

-- ===========================================================================
-- Constants (types.ts)
-- ===========================================================================

/-- Width of the overlay window, from types.ts. -/
def WINDOW_WIDTH : Int := 494

/-- Minimum height of the overlay window, from types.ts. -/
def WINDOW_MIN_HEIGHT : Int := 160

/-- Maximum height of the overlay window, from types.ts. -/
def WINDOW_MAX_HEIGHT : Int := 420

/-- Margin from the screen edge, from types.ts. -/
def WINDOW_MARGIN : Int := 20

/-- Spacing between stacked overlay windows, from types.ts. -/
def WINDOW_SPACING : Int := 10

/-- Maximum number of messages kept per overlay, from types.ts. -/
def MAX_RENDERED_MESSAGES : Nat := 200

/-- Maximum number of concurrent overlay windows, from types.ts. -/
def MAX_OVERLAY_WINDOWS : Nat := 5

-- ===========================================================================
-- Data model (types.ts)
-- ===========================================================================

/-- One message held in an overlay buffer (interface OverlayMessage). -/
structure OverlayMessage where
  id : String
  content : String
  timestamp : Int
deriving DecidableEq, Repr

/-- Payload of a notification event (interface NotificationData).
`authorId` and `messageId` are optional in the source. -/
structure NotificationData where
  id : String
  authorId : Option String
  authorName : String
  authorAvatar : String
  content : String
  channelId : String
  timestamp : Int
  messageId : Option String
deriving DecidableEq, Repr

/-- State of one active overlay window (interface WindowState).  The
`BrowserWindow` itself is modelled by its observable geometry: `winPos` is the
window position last applied via `setPosition`, a user drag, or creation, and
`winSize` the size last applied via the constructor or `setSize`. -/
structure WindowState where
  winPos : Int × Int
  winSize : Int × Int
  channelId : String
  authorName : String
  authorAvatar : String
  messages : List OverlayMessage
  lastTimestamp : Int
  currentHeight : Int
  manualPos : Option (Int × Int)
deriving DecidableEq, Repr

/-- Module-level state of the main-process overlay manager: the `activeWindows`
Map (insertion-ordered, keyed by channel id), the persisted `lastDraggedPos`,
and the primary display work-area size read by `getWindowPosition`. -/
structure Registry where
  activeWindows : List (String × WindowState)
  lastDraggedPos : Option (Int × Int)
  workW : Int
  workH : Int
deriving DecidableEq, Repr

/-- Registry with no open overlays, as at module load (before any drag). -/
def emptyRegistry (w h : Int) : Registry :=
  { activeWindows := [], lastDraggedPos := none, workW := w, workH := h }

-- ===========================================================================
-- JS Map operations on the insertion-ordered association list
-- ===========================================================================

/-- `Map.get`: value at the first (unique, in a real `Map`) matching key. -/
def mapGet : List (String × WindowState) → String → Option WindowState
  | [], _ => none
  | p :: rest, k => if p.1 = k then some p.2 else mapGet rest k

/-- `Map.delete`: removes the entry with the given key (the first match). -/
def mapDelete : List (String × WindowState) → String → List (String × WindowState)
  | [], _ => []
  | p :: rest, k => if p.1 = k then rest else p :: mapDelete rest k

/-- `Map.set`: updates an existing key in place, otherwise appends at the end
(the JS `Map` insertion-order semantics). -/
def mapSet : List (String × WindowState) → String → WindowState → List (String × WindowState)
  | [], k, v => [(k, v)]
  | p :: rest, k, v => if p.1 = k then (k, v) :: rest else p :: mapSet rest k v

/-- In-place mutation of the state object stored under a key (the source
mutates the `WindowState` object obtained from `Map.get`). -/
def mapUpdate : List (String × WindowState) → String → (WindowState → WindowState) →
    List (String × WindowState)
  | [], _, _ => []
  | p :: rest, k, f => if p.1 = k then (p.1, f p.2) :: rest else p :: mapUpdate rest k f

-- ===========================================================================
-- Layout (getWindowPosition / repositionWindows)
-- ===========================================================================

/-- getWindowPosition: position of the overlay at stack slot `index`, given the
accumulated height of the windows already stacked below it. -/
def getWindowPosition (workW workH : Int) (index : Nat) (winHeight stackedBelow : Int) :
    Int × Int :=
  (workW - WINDOW_WIDTH - WINDOW_MARGIN,
   workH - WINDOW_MARGIN - stackedBelow - winHeight - (index : Int) * WINDOW_SPACING)

/-- Body of the repositionWindows loop: walks the entries in Map iteration
order carrying the slot index and accumulated height; entries with a manual
position are skipped (`if (st.manualPos) continue`) and contribute nothing to
the accumulators.  All windows held in the registry are live in this model, so
the `win && !win.isDestroyed()` guard is always true. -/
def repositionGo (workW workH : Int) : Nat → Int → List (String × WindowState) →
    List (String × WindowState)
  | _, _, [] => []
  | index, stackedBelow, p :: rest =>
    if p.2.manualPos.isSome then
      p :: repositionGo workW workH index stackedBelow rest
    else
      (p.1, { p.2 with
              winPos := getWindowPosition workW workH index p.2.currentHeight stackedBelow }) ::
        repositionGo workW workH (index + 1) (stackedBelow + p.2.currentHeight) rest

/-- repositionWindows: full layout pass over the registry. -/
def repositionWindows (s : Registry) : Registry :=
  { s with activeWindows := repositionGo s.workW s.workH 0 0 s.activeWindows }

-- ===========================================================================
-- closeNotification
-- ===========================================================================

/-- closeNotification: closes the window (removal of the entry; the `closed`
event's own delete is a no-op because the entry is already gone) and re-runs
the layout pass. -/
def closeNotification (s : Registry) (id : String) : Registry :=
  repositionWindows { s with activeWindows := mapDelete s.activeWindows id }

-- ===========================================================================
-- showNotification
-- ===========================================================================

/-- JS `||` on strings: the left operand unless it is falsy (empty). -/
def jsOrString (a b : String) : String := if a = "" then b else a

/-- push followed by the overflow splice in showNotification:
`messages.push(msg); if (length > MAX) splice(0, length - MAX)`. -/
def appendBounded (buf : List OverlayMessage) (msg : OverlayMessage) : List OverlayMessage :=
  let b := buf ++ [msg]
  if b.length > MAX_RENDERED_MESSAGES then b.drop (b.length - MAX_RENDERED_MESSAGES) else b

/-- showNotification (upsert).  `now` stands for `Date.now()` at the time of
the call.  The message id falls back through `data.messageId || data.id ||
String(Date.now())` with JS falsiness on strings, and the timestamp through
`data.timestamp || Date.now()` with JS falsiness on numbers (zero).
On the append path the entry is promoted to the end of the Map by
delete-then-set and a layout pass runs.  On the create path, a registry at
capacity first evicts the entry whose key comes first in iteration order —
guarded by the JS truthiness test `if (oldest)`, which also fails on the empty
string — then the window is created at `lastDraggedPos ?? defaultPos`, the
entry is stored with `manualPos` copied from `lastDraggedPos`, and the
`did-finish-load` handler runs the layout pass. -/
def showNotification (s : Registry) (data : NotificationData) (now : Int) : Registry :=
  let key := data.channelId
  let msg : OverlayMessage :=
    { id := jsOrString (data.messageId.getD "") (jsOrString data.id (toString now)),
      content := data.content,
      timestamp := if data.timestamp = 0 then now else data.timestamp }
  match mapGet s.activeWindows key with
  | some st =>
    let st2 := { st with messages := appendBounded st.messages msg,
                         lastTimestamp := msg.timestamp }
    repositionWindows { s with activeWindows := mapSet (mapDelete s.activeWindows key) key st2 }
  | none =>
    let s1 :=
      if s.activeWindows.length ≥ MAX_OVERLAY_WINDOWS then
        match s.activeWindows.head? with
        | some p => if p.1 = "" then s else closeNotification s p.1
        | none => s
      else s
    let defaultPos := getWindowPosition s1.workW s1.workH s1.activeWindows.length
      WINDOW_MIN_HEIGHT 0
    let pos := s1.lastDraggedPos.getD defaultPos
    let st : WindowState :=
      { winPos := pos,
        winSize := (WINDOW_WIDTH, WINDOW_MIN_HEIGHT),
        channelId := key,
        authorName := data.authorName,
        authorAvatar := data.authorAvatar,
        messages := [msg],
        lastTimestamp := msg.timestamp,
        currentHeight := WINDOW_MIN_HEIGHT,
        manualPos := s1.lastDraggedPos }
    repositionWindows { s1 with activeWindows := mapSet s1.activeWindows key st }

/-- A sequence of showNotification calls (each paired with its `Date.now()`). -/
def runUpserts (s : Registry) (evs : List (NotificationData × Int)) : Registry :=
  evs.foldl (fun acc e => showNotification acc e.1 e.2) s

-- ===========================================================================
-- updateDraggedPosition (the `moved` handler)
-- ===========================================================================

/-- updateDraggedPosition: handler of the window `moved` event after a user
drag.  `p` is the position reported by `win.getPosition()`, which is also
where the OS left the window (reflected in `winPos`).  It is stored both as
the process-wide `lastDraggedPos` and as the entry's `manualPos`. -/
def updateDraggedPosition (s : Registry) (key : String) (p : Int × Int) : Registry :=
  { s with lastDraggedPos := some p,
           activeWindows := mapUpdate s.activeWindows key
             (fun st => { st with manualPos := some p, winPos := p }) }

-- ===========================================================================
-- Height normalization (normalizeRequestedHeight) and the JS number model
-- ===========================================================================

/-- Result of the JS numeric coercion: a finite double (modelled as a
rational), NaN, or an infinity. -/
inductive JsNum where
  | finite (q : ℚ)
  | nan
  | posInf
  | negInf
deriving DecidableEq, Repr

/-- A JS value as it can arrive over IPC in the resize payload: a number, a
string, null, undefined, or a boolean. -/
inductive JsVal where
  | num (v : JsNum)
  | str (s : String)
  | nullV
  | undef
  | boolV (b : Bool)
deriving DecidableEq, Repr

/-- Accumulator loop reading a run of decimal digits. -/
def decDigitsGo (acc : Nat) : List Char → Option Nat
  | [] => some acc
  | c :: cs => if c.isDigit then decDigitsGo (acc * 10 + (c.toNat - 48)) cs else none

/-- Modelled JS `Number()` coercion on strings, restricted to the decimal
integer forms relevant here: the empty string coerces to `0`, an optionally
minus-signed run of decimal digits coerces to its value, and every other
string is mapped to NaN. -/
def parseDecimal (s : String) : JsNum :=
  match s.toList with
  | [] => .finite 0
  | '-' :: rest =>
    match rest with
    | [] => .nan
    | l => match decDigitsGo 0 l with
           | some n => .finite (-(n : ℚ))
           | none => .nan
  | l => match decDigitsGo 0 l with
         | some n => .finite (n : ℚ)
         | none => .nan

/-- The coercion performed by `typeof h === "number" ? h : Number(h)`:
numbers pass through, other values go through `Number()`. -/
def toNumber : JsVal → JsNum
  | .num v => v
  | .str s => parseDecimal s
  | .nullV => .finite 0
  | .undef => .nan
  | .boolV b => .finite (if b then 1 else 0)

/-- clamp from the utility section: `Math.max(min, Math.min(max, n))`. -/
def clamp (n mn mx : Int) : Int := max mn (min mx n)

/-- normalizeRequestedHeight: non-finite coercions fall back to the minimum
height, finite ones are ceiled and clamped into the allowed range. -/
def normalizeRequestedHeight (h : JsVal) : Int :=
  match toNumber h with
  | .finite q => clamp ⌈q⌉ WINDOW_MIN_HEIGHT WINDOW_MAX_HEIGHT
  | _ => WINDOW_MIN_HEIGHT

-- ===========================================================================
-- DMOVERLAY_RESIZE handler
-- ===========================================================================

/-- The DMOVERLAY_RESIZE IPC handler.  Returns the new registry state and
whether a layout pass (`repositionWindows`) was triggered.  The entry lookup
is guarded by JS truthiness on the id — `const st = key ?
activeWindows.get(key) : undefined` — so a request whose id is the empty
string is ignored even when an overlay is registered under the empty-string
key; a request for an unknown id is likewise ignored; a request whose
normalized height equals the stored height returns before resizing
(`if (st.currentHeight === h) return`); otherwise the stored height and the
physical window size are updated and a layout pass runs. -/
def handleResize (s : Registry) (id : String) (v : JsVal) : Registry × Bool :=
  match (if id = "" then none else mapGet s.activeWindows id) with
  | none => (s, false)
  | some st =>
    let h := normalizeRequestedHeight v
    if st.currentHeight = h then (s, false)
    else
      let f := fun st0 => { st0 with currentHeight := h, winSize := (WINDOW_WIDTH, h) }
      (repositionWindows { s with activeWindows := mapUpdate s.activeWindows id f }, true)

-- ===========================================================================
-- Stack-order bookkeeping used to state the layout theorems
-- ===========================================================================

/-- Total height of the automatically positioned (no manual override) entries
of a registry segment — the quantity `stackedBelow` accumulates. -/
def autoHeight : List (String × WindowState) → Int
  | [] => 0
  | p :: rest => (if p.2.manualPos = none then p.2.currentHeight else 0) + autoHeight rest

/-- Number of automatically positioned entries of a registry segment — the
quantity `index` accumulates (as an integer, to appear in positions). -/
def autoCount : List (String × WindowState) → Int
  | [] => 0
  | p :: rest => (if p.2.manualPos = none then 1 else 0) + autoCount rest

/-- Modelled from the spec: a layout pass that walks the entries in "stack
order with the most-recently-updated entry first", i.e. the reverse of the
registry's Map iteration order (promotion appends at the end, so the
most-recently-updated entry is last in iteration order).  Used only to compare
the claimed walk direction against the implemented `repositionWindows`. -/
def repositionWindowsSpecOrder (s : Registry) : Registry :=
  { s with activeWindows := (repositionGo s.workW s.workH 0 0 s.activeWindows.reverse).reverse }

-- ===========================================================================
-- HTML escaping (template.ts), on character lists
-- ===========================================================================

/-- One global single-character replacement, `text.replace(/c/g, r)`. -/
def replaceAll : List Char → Char → List Char → List Char
  | [], _, _ => []
  | ch :: rest, c, r => (if ch = c then r else [ch]) ++ replaceAll rest c r

/-- The five entity replacement strings of escapeHtml. -/
def ampEntity : List Char := ['&', 'a', 'm', 'p', ';']

/-- Entity for the less-than sign. -/
def ltEntity : List Char := ['&', 'l', 't', ';']

/-- Entity for the greater-than sign. -/
def gtEntity : List Char := ['&', 'g', 't', ';']

/-- Entity for the double quote. -/
def quotEntity : List Char := ['&', 'q', 'u', 'o', 't', ';']

/-- Entity for the single quote. -/
def aposEntity : List Char := ['&', '#', '0', '3', '9', ';']

/-- escapeHtml: the five sequential global replacements, ampersand first. -/
def escapeHtml (l : List Char) : List Char :=
  replaceAll
    (replaceAll
      (replaceAll
        (replaceAll
          (replaceAll l '&' ampEntity)
          '<' ltEntity)
        '>' gtEntity)
      '"' quotEntity)
    '\'' aposEntity

/-- Per-character view of the escaping (what one input character becomes). -/
def escChar (c : Char) : List Char :=
  if c = '&' then ampEntity
  else if c = '<' then ltEntity
  else if c = '>' then gtEntity
  else if c = '"' then quotEntity
  else if c = '\'' then aposEntity
  else [c]

/-- Decoder of the five entities produced by escapeHtml; any other character
(and any ampersand not starting one of the five entities) passes through. -/
def unescapeHtml : List Char → List Char
  | [] => []
  | c :: rest =>
    if c = '&' then
      if rest.take 4 = ['a', 'm', 'p', ';'] then '&' :: unescapeHtml (rest.drop 4)
      else if rest.take 3 = ['l', 't', ';'] then '<' :: unescapeHtml (rest.drop 3)
      else if rest.take 3 = ['g', 't', ';'] then '>' :: unescapeHtml (rest.drop 3)
      else if rest.take 5 = ['q', 'u', 'o', 't', ';'] then '"' :: unescapeHtml (rest.drop 5)
      else if rest.take 5 = ['#', '0', '3', '9', ';'] then '\'' :: unescapeHtml (rest.drop 5)
      else c :: unescapeHtml rest
    else c :: unescapeHtml rest
termination_by l => l.length
decreasing_by
  all_goals simp [List.length_drop]
  all_goals omega

/-- Checks that an escaped text is inert: it contains no raw `<`, `>`, `"` or
single quote, and every ampersand in it starts one of the five entities. -/
def inertEscaped : List Char → Bool
  | [] => true
  | c :: rest =>
    if c = '&' then
      (decide (rest.take 4 = ['a', 'm', 'p', ';']) && inertEscaped (rest.drop 4)) ||
      (decide (rest.take 3 = ['l', 't', ';']) && inertEscaped (rest.drop 3)) ||
      (decide (rest.take 3 = ['g', 't', ';']) && inertEscaped (rest.drop 3)) ||
      (decide (rest.take 5 = ['q', 'u', 'o', 't', ';']) && inertEscaped (rest.drop 5)) ||
      (decide (rest.take 5 = ['#', '0', '3', '9', ';']) && inertEscaped (rest.drop 5))
    else if c = '<' ∨ c = '>' ∨ c = '"' ∨ c = '\'' then false
    else inertEscaped rest
termination_by l => l.length
decreasing_by
  all_goals simp [List.length_drop]
  all_goals omega

-- ===========================================================================
-- generateNonce (renderer module)
-- ===========================================================================

/-- The Discord epoch offset used by generateNonce. -/
def DISCORD_EPOCH : Int := 1420070400000

/-- generateNonce: `(BigInt(Date.now() - 1420070400000) << 22n).toString()`,
read as the integer it denotes (`now` stands for `Date.now()`; BigInt
arithmetic is exact and the decimal rendering is injective). -/
def generateNonce (now : Int) : Int :=
  (now - DISCORD_EPOCH) * 2 ^ 22

-- ===========================================================================
-- sendMessageSafe (renderer module)
-- ===========================================================================

/-- The attempt loop of sendMessageSafe over the fixed variant list: returns
whether some variant succeeded together with the indices of the variants
actually invoked, in order.  `raises i = true` means calling-convention
variant `i` throws (or its promise rejects). -/
def attemptLoop (raises : Nat → Bool) : List Nat → Bool × List Nat
  | [] => (false, [])
  | i :: rest =>
    if raises i then
      let r := attemptLoop raises rest
      (r.1, i :: r.2)
    else (true, [i])

/-- sendMessageSafe: `none` models `MessageActions?.sendMessage` being absent
(return false without any attempt); otherwise the four calling-convention
variants, indexed 0–3 in source order, are tried first-success-wins.  The
boolean is the caller-visible return value — errors are caught inside the
loop, never propagated. -/
def sendMessageSafe (cap : Option (Nat → Bool)) : Bool × List Nat :=
  match cap with
  | none => (false, [])
  | some raises => attemptLoop raises [0, 1, 2, 3]

-- ===========================================================================
-- Message buffer lemmas (claim C4)
-- ===========================================================================

lemma appendBounded_eq_drop (buf : List OverlayMessage) (msg : OverlayMessage) :
    appendBounded buf msg =
      (buf ++ [msg]).drop (buf.length + 1 - MAX_RENDERED_MESSAGES) := by
  unfold appendBounded
  have hlen : (buf ++ [msg]).length = buf.length + 1 := by simp
  by_cases h : (buf ++ [msg]).length > MAX_RENDERED_MESSAGES
  · rw [if_pos h, hlen]
  · rw [if_neg h]
    rw [hlen] at h
    have h0 : buf.length + 1 - MAX_RENDERED_MESSAGES = 0 := by omega
    rw [h0, List.drop_zero]

lemma length_appendBounded (buf : List OverlayMessage) (msg : OverlayMessage) :
    (appendBounded buf msg).length = min (buf.length + 1) MAX_RENDERED_MESSAGES := by
  rw [appendBounded_eq_drop]
  simp only [List.length_drop, List.length_append, List.length_cons, List.length_nil]
  omega

lemma foldl_appendBounded (ms : List OverlayMessage) :
    ∀ acc : List OverlayMessage, acc.length ≤ MAX_RENDERED_MESSAGES →
      List.foldl appendBounded acc ms =
        (acc ++ ms).drop (acc.length + ms.length - MAX_RENDERED_MESSAGES) := by
  induction ms with
  | nil =>
    intro acc h
    have h0 : acc.length + (List.nil : List OverlayMessage).length - MAX_RENDERED_MESSAGES = 0 := by
      simp only [List.length_nil]; omega
    simp only [List.foldl_nil, List.append_nil, h0, List.drop_zero]
  | cons m ms ih =>
    intro acc h
    have hlen : (appendBounded acc m).length ≤ MAX_RENDERED_MESSAGES := by
      rw [length_appendBounded]; omega
    rw [List.foldl_cons, ih _ hlen, length_appendBounded, appendBounded_eq_drop]
    have hd : acc.length + 1 - MAX_RENDERED_MESSAGES ≤ (acc ++ [m]).length := by
      simp only [List.length_append, List.length_cons, List.length_nil]
      omega
    rw [← List.drop_append_of_le_length hd, List.drop_drop]
    have hlist : acc ++ [m] ++ ms = acc ++ m :: ms := by simp
    rw [hlist]
    have hidx : acc.length + 1 - MAX_RENDERED_MESSAGES +
        (min (acc.length + 1) MAX_RENDERED_MESSAGES + ms.length - MAX_RENDERED_MESSAGES) =
        acc.length + (m :: ms).length - MAX_RENDERED_MESSAGES := by
      simp only [List.length_cons]
      omega
    rw [hidx]

/-- C4: for every conversation, folding the showNotification append step
(push plus overflow splice) over any arrival sequence leaves exactly the most
recent `min(total, MAX_RENDERED_MESSAGES)` messages in arrival order — the
suffix of the arrivals — and the buffer length never exceeds
`MAX_RENDERED_MESSAGES` (200). -/
theorem c4_buffer_holds_most_recent_suffix (ms : List OverlayMessage) :
    List.foldl appendBounded [] ms = ms.drop (ms.length - MAX_RENDERED_MESSAGES) ∧
    (List.foldl appendBounded [] ms).length ≤ MAX_RENDERED_MESSAGES := by
  have h := foldl_appendBounded ms [] (by simp)
  simp only [List.nil_append, List.length_nil, Nat.zero_add] at h
  refine ⟨h, ?_⟩
  rw [h]
  simp only [List.length_drop]
  omega

-- ===========================================================================
-- Nonce lemmas (claim C9)
-- ===========================================================================

/-- C9 counterexample: the nonce is a pure function of the millisecond clock,
so two calls within the same millisecond (here both at time 1700000000000)
return the same nonce — they are not distinct, contradicting the claimed local
uniqueness for two calls at the same time.  The second conjunct pins the
common concrete value. -/
theorem c9_ce_same_millisecond_collision :
    generateNonce 1700000000000 = generateNonce 1700000000000 ∧
    generateNonce 1700000000000 = 279929600000 * 2 ^ 22 := by
  refine ⟨rfl, ?_⟩
  norm_num [generateNonce, DISCORD_EPOCH]

/-- C9 amended: for two calls at strictly increasing times the nonces, read as
the integers `(t - 1420070400000) * 2^22`, are distinct and the later one is
strictly greater; calls within the same millisecond return equal nonces. -/
theorem c9_nonce_strictly_monotone (t1 t2 : Int) (h : t1 < t2) :
    generateNonce t1 < generateNonce t2 ∧ generateNonce t1 ≠ generateNonce t2 := by
  have hpow : (0 : Int) < 2 ^ 22 := by positivity
  have hlt : generateNonce t1 < generateNonce t2 := by
    unfold generateNonce
    exact mul_lt_mul_of_pos_right (by omega) hpow
  exact ⟨hlt, ne_of_lt hlt⟩

/-- Witness for the amended C9 theorem at the concrete times 0 and 1. -/
theorem c9_nonce_strictly_monotone_witness :
    generateNonce 0 < generateNonce 1 ∧ generateNonce 0 ≠ generateNonce 1 :=
  c9_nonce_strictly_monotone 0 1 (by norm_num)

-- ===========================================================================
-- Height normalization lemmas (claims C10 and C5)
-- ===========================================================================

lemma normalize_of_finite (v : JsVal) (q : ℚ) (hv : toNumber v = JsNum.finite q) :
    normalizeRequestedHeight v = clamp ⌈q⌉ WINDOW_MIN_HEIGHT WINDOW_MAX_HEIGHT := by
  unfold normalizeRequestedHeight
  rw [hv]

lemma normalize_of_low (v : JsVal) (q : ℚ) (hv : toNumber v = JsNum.finite q)
    (hq : q < 160) : normalizeRequestedHeight v = WINDOW_MIN_HEIGHT := by
  rw [normalize_of_finite v q hv]
  have hceil : ⌈q⌉ ≤ 160 := by
    rw [Int.ceil_le]
    exact_mod_cast le_of_lt hq
  simp only [clamp, WINDOW_MIN_HEIGHT, WINDOW_MAX_HEIGHT]
  omega

lemma normalize_of_high (v : JsVal) (q : ℚ) (hv : toNumber v = JsNum.finite q)
    (hq : 420 < q) : normalizeRequestedHeight v = WINDOW_MAX_HEIGHT := by
  rw [normalize_of_finite v q hv]
  have hceil : 420 < ⌈q⌉ := by
    have := Int.le_ceil q
    have h420 : (420 : ℚ) < (⌈q⌉ : ℚ) := lt_of_lt_of_le hq this
    exact_mod_cast h420
  simp only [clamp, WINDOW_MIN_HEIGHT, WINDOW_MAX_HEIGHT]
  omega

/-- C10 counterexample: the string "300" is not a number — yet
normalizeRequestedHeight coerces it with `Number()` to the finite value 300
and returns 300, not WINDOW_MIN_HEIGHT, refuting the claim that every
non-numeric input yields exactly WINDOW_MIN_HEIGHT. -/
theorem c10_ce_numeric_string :
    normalizeRequestedHeight (JsVal.str "300") = 300 ∧
    (300 : Int) ≠ WINDOW_MIN_HEIGHT ∧
    (∀ v : JsNum, JsVal.str "300" ≠ JsVal.num v) := by
  refine ⟨?_, by decide, fun v h => by cases h⟩
  have hp : toNumber (JsVal.str "300") = JsNum.finite 300 := by decide
  rw [normalize_of_finite _ _ hp]
  norm_num [clamp, WINDOW_MIN_HEIGHT, WINDOW_MAX_HEIGHT]

/-- C10 amended: normalizeRequestedHeight is total on the IPC value domain and
always returns an integer in [WINDOW_MIN_HEIGHT, WINDOW_MAX_HEIGHT]; every
value whose JS numeric coercion is NaN or infinite yields exactly
WINDOW_MIN_HEIGHT, and every value whose coercion is a finite number q yields
the ceiling of q clamped into the interval (so a numeric string behaves like
the number it denotes, not like a non-finite input). -/
theorem c10_normalize_total (v : JsVal) :
    (WINDOW_MIN_HEIGHT ≤ normalizeRequestedHeight v ∧
     normalizeRequestedHeight v ≤ WINDOW_MAX_HEIGHT) ∧
    ((toNumber v = JsNum.nan ∨ toNumber v = JsNum.posInf ∨ toNumber v = JsNum.negInf) →
      normalizeRequestedHeight v = WINDOW_MIN_HEIGHT) ∧
    (∀ q : ℚ, toNumber v = JsNum.finite q →
      normalizeRequestedHeight v = clamp ⌈q⌉ WINDOW_MIN_HEIGHT WINDOW_MAX_HEIGHT) := by
  refine ⟨?_, ?_, fun q hq => normalize_of_finite v q hq⟩
  · unfold normalizeRequestedHeight
    cases htv : toNumber v with
    | finite q =>
      simp only [clamp, WINDOW_MIN_HEIGHT, WINDOW_MAX_HEIGHT]
      omega
    | nan => simp [WINDOW_MIN_HEIGHT, WINDOW_MAX_HEIGHT]
    | posInf => simp [WINDOW_MIN_HEIGHT, WINDOW_MAX_HEIGHT]
    | negInf => simp [WINDOW_MIN_HEIGHT, WINDOW_MAX_HEIGHT]
  · intro hnf
    unfold normalizeRequestedHeight
    rcases hnf with h | h | h <;> rw [h]

/-- Witness for the amended C10 theorem: NaN falls back to the minimum height
and the finite input 300 is clamped (to itself). -/
theorem c10_normalize_total_witness :
    normalizeRequestedHeight (JsVal.num JsNum.nan) = WINDOW_MIN_HEIGHT ∧
    normalizeRequestedHeight (JsVal.num (JsNum.finite 300)) =
      clamp ⌈(300 : ℚ)⌉ WINDOW_MIN_HEIGHT WINDOW_MAX_HEIGHT :=
  ⟨(c10_normalize_total (JsVal.num JsNum.nan)).2.1 (Or.inl rfl),
   (c10_normalize_total (JsVal.num (JsNum.finite 300))).2.2 300 rfl⟩

-- ===========================================================================
-- sendMessageSafe lemmas (claim C6)
-- ===========================================================================

/-- C6: sendMessageSafe with the capability present tries the four variants in
order 0,1,2,3; it returns true exactly when some variant does not raise; the
variants invoked are exactly the raising prefix followed by the first
non-raising variant if one exists — so it stops at the first success and never
retries a variant; with the capability absent it attempts nothing and returns
false.  Errors are consumed inside the loop by construction (the result is a
total value, never a propagated exception). -/
theorem c6_send_first_success (raises : Nat → Bool) :
    ((sendMessageSafe (some raises)).1 = true ↔
      (raises 0 = false ∨ raises 1 = false ∨ raises 2 = false ∨ raises 3 = false)) ∧
    (sendMessageSafe (some raises)).2 =
      List.takeWhile raises [0, 1, 2, 3] ++ (List.dropWhile raises [0, 1, 2, 3]).take 1 ∧
    (sendMessageSafe (some raises)).2.Nodup ∧
    sendMessageSafe (none : Option (Nat → Bool)) = (false, []) := by
  rcases h0 : raises 0 <;> rcases h1 : raises 1 <;> rcases h2 : raises 2 <;> rcases h3 : raises 3 <;>
    simp [sendMessageSafe, attemptLoop, h0, h1, h2, h3, List.takeWhile, List.dropWhile]

/-- Witness for C6 at a concrete outcome profile: the first three variants
raise and the fourth succeeds, so the overall result is success and all four
variants were attempted exactly once, in order. -/
theorem c6_send_first_success_witness :
    (sendMessageSafe (some (fun i => decide (i < 3)))).1 = true ∧
    (sendMessageSafe (some (fun i => decide (i < 3)))).2 = [0, 1, 2, 3] := by
  have h := c6_send_first_success (fun i => decide (i < 3))
  refine ⟨h.1.mpr ?_, ?_⟩
  · right; right; right; decide
  · rw [h.2.1]; decide

-- ===========================================================================
-- HTML escaping lemmas (claim C8)
-- ===========================================================================

lemma unescape_amp (t : List Char) :
    unescapeHtml ('&' :: 'a' :: 'm' :: 'p' :: ';' :: t) = '&' :: unescapeHtml t := by
  simp [unescapeHtml]

lemma unescape_lt (t : List Char) :
    unescapeHtml ('&' :: 'l' :: 't' :: ';' :: t) = '<' :: unescapeHtml t := by
  have h4 : ('l' :: 't' :: ';' :: t).take 4 = 'l' :: 't' :: ';' :: t.take 1 := rfl
  simp [unescapeHtml, h4]

lemma unescape_cons_other (c : Char) (t : List Char) (h : c ≠ '&') :
    unescapeHtml (c :: t) = c :: unescapeHtml t := by
  simp [unescapeHtml, h]

lemma unescape_gt (t : List Char) :
    unescapeHtml ('&' :: 'g' :: 't' :: ';' :: t) = '>' :: unescapeHtml t := by
  have h4 : ('g' :: 't' :: ';' :: t).take 4 = 'g' :: 't' :: ';' :: t.take 1 := rfl
  simp [unescapeHtml, h4]

lemma unescape_quot (t : List Char) :
    unescapeHtml ('&' :: 'q' :: 'u' :: 'o' :: 't' :: ';' :: t) = '"' :: unescapeHtml t := by
  simp [unescapeHtml]

lemma unescape_apos (t : List Char) :
    unescapeHtml ('&' :: '#' :: '0' :: '3' :: '9' :: ';' :: t) = '\'' :: unescapeHtml t := by
  simp [unescapeHtml]

lemma replaceAll_append (a b : List Char) (c : Char) (r : List Char) :
    replaceAll (a ++ b) c r = replaceAll a c r ++ replaceAll b c r := by
  induction a with
  | nil => simp [replaceAll]
  | cons x xs ih => simp [replaceAll, ih]

lemma escapeHtml_append (a b : List Char) :
    escapeHtml (a ++ b) = escapeHtml a ++ escapeHtml b := by
  simp [escapeHtml, replaceAll_append]

lemma escapeHtml_single (c : Char) : escapeHtml [c] = escChar c := by
  by_cases h1 : c = '&'
  · subst h1; decide
  by_cases h2 : c = '<'
  · subst h2; decide
  by_cases h3 : c = '>'
  · subst h3; decide
  by_cases h4 : c = '"'
  · subst h4; decide
  by_cases h5 : c = '\''
  · subst h5; decide
  simp [escapeHtml, replaceAll, escChar, h1, h2, h3, h4, h5,
    ampEntity, ltEntity, gtEntity, quotEntity, aposEntity]

lemma escapeHtml_cons (c : Char) (l : List Char) :
    escapeHtml (c :: l) = escChar c ++ escapeHtml l := by
  have h : c :: l = [c] ++ l := rfl
  rw [h, escapeHtml_append, escapeHtml_single]

lemma escapeHtml_nil : escapeHtml [] = [] := by
  simp [escapeHtml, replaceAll]

lemma unescape_escape (l : List Char) : unescapeHtml (escapeHtml l) = l := by
  induction l with
  | nil => rw [escapeHtml_nil]; simp [unescapeHtml]
  | cons c l ih =>
    rw [escapeHtml_cons]
    by_cases h1 : c = '&'
    · subst h1
      show unescapeHtml (ampEntity ++ escapeHtml l) = '&' :: l
      rw [show ampEntity ++ escapeHtml l = '&' :: 'a' :: 'm' :: 'p' :: ';' :: escapeHtml l from rfl,
        unescape_amp, ih]
    by_cases h2 : c = '<'
    · subst h2
      show unescapeHtml (ltEntity ++ escapeHtml l) = '<' :: l
      rw [show ltEntity ++ escapeHtml l = '&' :: 'l' :: 't' :: ';' :: escapeHtml l from rfl,
        unescape_lt, ih]
    by_cases h3 : c = '>'
    · subst h3
      show unescapeHtml (gtEntity ++ escapeHtml l) = '>' :: l
      rw [show gtEntity ++ escapeHtml l = '&' :: 'g' :: 't' :: ';' :: escapeHtml l from rfl,
        unescape_gt, ih]
    by_cases h4 : c = '"'
    · subst h4
      show unescapeHtml (quotEntity ++ escapeHtml l) = '"' :: l
      rw [show quotEntity ++ escapeHtml l = '&' :: 'q' :: 'u' :: 'o' :: 't' :: ';' :: escapeHtml l
          from rfl, unescape_quot, ih]
    by_cases h5 : c = '\''
    · subst h5
      show unescapeHtml (aposEntity ++ escapeHtml l) = '\'' :: l
      rw [show aposEntity ++ escapeHtml l = '&' :: '#' :: '0' :: '3' :: '9' :: ';' :: escapeHtml l
          from rfl, unescape_apos, ih]
    · rw [show escChar c ++ escapeHtml l = c :: escapeHtml l by
        simp [escChar, h1, h2, h3, h4, h5], unescape_cons_other c _ h1, ih]

lemma inert_amp (t : List Char) :
    inertEscaped ('&' :: 'a' :: 'm' :: 'p' :: ';' :: t) = inertEscaped t := by
  simp [inertEscaped]

lemma inert_lt (t : List Char) :
    inertEscaped ('&' :: 'l' :: 't' :: ';' :: t) = inertEscaped t := by
  have h4 : ('l' :: 't' :: ';' :: t).take 4 = 'l' :: 't' :: ';' :: t.take 1 := rfl
  simp [inertEscaped, h4]

lemma inert_gt (t : List Char) :
    inertEscaped ('&' :: 'g' :: 't' :: ';' :: t) = inertEscaped t := by
  have h4 : ('g' :: 't' :: ';' :: t).take 4 = 'g' :: 't' :: ';' :: t.take 1 := rfl
  simp [inertEscaped, h4]

lemma inert_quot (t : List Char) :
    inertEscaped ('&' :: 'q' :: 'u' :: 'o' :: 't' :: ';' :: t) = inertEscaped t := by
  simp [inertEscaped]

lemma inert_apos (t : List Char) :
    inertEscaped ('&' :: '#' :: '0' :: '3' :: '9' :: ';' :: t) = inertEscaped t := by
  simp [inertEscaped]

lemma inert_cons_other (c : Char) (t : List Char) (h1 : c ≠ '&') (h2 : c ≠ '<')
    (h3 : c ≠ '>') (h4 : c ≠ '"') (h5 : c ≠ '\'') :
    inertEscaped (c :: t) = inertEscaped t := by
  simp [inertEscaped, h1, h2, h3, h4, h5]

lemma inert_escape (l : List Char) : inertEscaped (escapeHtml l) = true := by
  induction l with
  | nil => rw [escapeHtml_nil]; simp [inertEscaped]
  | cons c l ih =>
    rw [escapeHtml_cons]
    by_cases h1 : c = '&'
    · subst h1
      rw [show escChar '&' ++ escapeHtml l = '&' :: 'a' :: 'm' :: 'p' :: ';' :: escapeHtml l
          from rfl, inert_amp, ih]
    by_cases h2 : c = '<'
    · subst h2
      rw [show escChar '<' ++ escapeHtml l = '&' :: 'l' :: 't' :: ';' :: escapeHtml l
          from rfl, inert_lt, ih]
    by_cases h3 : c = '>'
    · subst h3
      rw [show escChar '>' ++ escapeHtml l = '&' :: 'g' :: 't' :: ';' :: escapeHtml l
          from rfl, inert_gt, ih]
    by_cases h4 : c = '"'
    · subst h4
      rw [show escChar '"' ++ escapeHtml l = '&' :: 'q' :: 'u' :: 'o' :: 't' :: ';' :: escapeHtml l
          from rfl, inert_quot, ih]
    by_cases h5 : c = '\''
    · subst h5
      rw [show escChar '\'' ++ escapeHtml l = '&' :: '#' :: '0' :: '3' :: '9' :: ';' :: escapeHtml l
          from rfl, inert_apos, ih]
    · rw [show escChar c ++ escapeHtml l = c :: escapeHtml l by
        simp [escChar, h1, h2, h3, h4, h5], inert_cons_other c _ h1 h2 h3 h4 h5, ih]

lemma mem_escChar_not_special (c0 c : Char) (h : c ∈ escChar c0) :
    c ≠ '<' ∧ c ≠ '>' ∧ c ≠ '"' ∧ c ≠ '\'' := by
  by_cases h1 : c0 = '&'
  · subst h1; simp [escChar, ampEntity] at h; rcases h with rfl | rfl | rfl | rfl | rfl <;> decide
  by_cases h2 : c0 = '<'
  · subst h2; simp [escChar, ltEntity] at h; rcases h with rfl | rfl | rfl | rfl <;> decide
  by_cases h3 : c0 = '>'
  · subst h3; simp [escChar, gtEntity] at h; rcases h with rfl | rfl | rfl | rfl <;> decide
  by_cases h4 : c0 = '"'
  · subst h4; simp [escChar, quotEntity] at h; rcases h with rfl | rfl | rfl | rfl | rfl | rfl <;> decide
  by_cases h5 : c0 = '\''
  · subst h5; simp [escChar, aposEntity] at h; rcases h with rfl | rfl | rfl | rfl | rfl | rfl <;> decide
  · simp [escChar, h1, h2, h3, h4, h5] at h
    subst h
    exact ⟨h2, h3, h4, h5⟩

lemma escape_no_raw_special (l : List Char) (c : Char) (h : c ∈ escapeHtml l) :
    c ≠ '<' ∧ c ≠ '>' ∧ c ≠ '"' ∧ c ≠ '\'' := by
  induction l with
  | nil => rw [escapeHtml_nil] at h; cases h
  | cons c0 l ih =>
    rw [escapeHtml_cons] at h
    rcases List.mem_append.mp h with hm | hm
    · exact mem_escChar_not_special c0 c hm
    · exact ih hm

/-- C8: escapeHtml (modelled on character lists) is an injective encoding:
decoding the five entities recovers the original text exactly for every
input; the output contains no raw less-than, greater-than, double-quote or
single-quote character; and every ampersand in the output starts one of the
five replacement entities (the inertEscaped check), so escaped author names
and message contents render as inert text. -/
theorem c8_escape (l1 l2 : List Char) :
    unescapeHtml (escapeHtml l1) = l1 ∧
    inertEscaped (escapeHtml l1) = true ∧
    (∀ c ∈ escapeHtml l1, c ≠ '<' ∧ c ≠ '>' ∧ c ≠ '"' ∧ c ≠ '\'') ∧
    (escapeHtml l1 = escapeHtml l2 → l1 = l2) := by
  refine ⟨unescape_escape l1, inert_escape l1, fun c hc => escape_no_raw_special l1 c hc,
    fun he => ?_⟩
  have h := unescape_escape l1
  rw [he, unescape_escape l2] at h
  exact h.symm

/-- Witness for C8 on a concrete string containing all five special
characters: the round trip recovers it, the escape is inert, and the
injectivity conjunct applies at it. -/
theorem c8_escape_witness :
    unescapeHtml (escapeHtml ['<', 's', '\'', '&', '"', '>']) = ['<', 's', '\'', '&', '"', '>'] ∧
    inertEscaped (escapeHtml ['<', 's', '\'', '&', '"', '>']) = true ∧
    ('s' ≠ '<' ∧ 's' ≠ '>' ∧ 's' ≠ '"' ∧ 's' ≠ '\'') ∧
    (['<', 's', '\'', '&', '"', '>'] : List Char) = ['<', 's', '\'', '&', '"', '>'] :=
  ⟨(c8_escape ['<', 's', '\'', '&', '"', '>'] []).1,
   (c8_escape ['<', 's', '\'', '&', '"', '>'] []).2.1,
   (c8_escape ['<', 's', '\'', '&', '"', '>'] []).2.2.1 's' (by decide),
   (c8_escape ['<', 's', '\'', '&', '"', '>'] ['<', 's', '\'', '&', '"', '>']).2.2.2 rfl⟩

-- ===========================================================================
-- Association-list and layout-pass lemmas (claims C1, C2, C3, C5, C7)
-- ===========================================================================

lemma map_fst_repositionGo (w h : Int) (i : Nat) (b : Int) (l : List (String × WindowState)) :
    (repositionGo w h i b l).map Prod.fst = l.map Prod.fst := by
  induction l generalizing i b with
  | nil => rfl
  | cons p rest ih =>
    by_cases hm : p.2.manualPos.isSome
    · simp [repositionGo, hm, ih]
    · simp [repositionGo, hm, ih]

lemma length_repositionGo (w h : Int) (i : Nat) (b : Int) (l : List (String × WindowState)) :
    (repositionGo w h i b l).length = l.length := by
  have := congrArg List.length (map_fst_repositionGo w h i b l)
  simpa using this

lemma mapGet_eq_none_iff (l : List (String × WindowState)) (k : String) :
    mapGet l k = none ↔ k ∉ l.map Prod.fst := by
  induction l with
  | nil => simp [mapGet]
  | cons p rest ih =>
    by_cases hp : p.1 = k
    · subst hp
      simp [mapGet]
    · simp only [mapGet, if_neg hp, List.map_cons, List.mem_cons, ih]
      constructor
      · intro h
        push_neg
        exact ⟨fun hh => hp hh.symm, h⟩
      · intro h
        push_neg at h
        exact h.2

lemma mapGet_mapSet_self (l : List (String × WindowState)) (k : String) (v : WindowState) :
    mapGet (mapSet l k v) k = some v := by
  induction l with
  | nil => simp [mapSet, mapGet]
  | cons p rest ih =>
    by_cases hp : p.1 = k
    · simp [mapSet, mapGet, hp]
    · simp [mapSet, mapGet, hp, ih]

lemma mapGet_mapSet_other (l : List (String × WindowState)) (k k2 : String) (v : WindowState)
    (h : k2 ≠ k) : mapGet (mapSet l k v) k2 = mapGet l k2 := by
  induction l with
  | nil =>
    have hne : k ≠ k2 := fun hh => h hh.symm
    simp [mapSet, mapGet, hne]
  | cons p rest ih =>
    by_cases hp : p.1 = k
    · subst hp
      have hne : p.1 ≠ k2 := fun hh => h hh.symm
      simp [mapSet, mapGet, hne]
    · simp only [mapSet, if_neg hp]
      by_cases hp2 : p.1 = k2
      · simp [mapGet, hp2]
      · simp [mapGet, hp2, ih]

lemma mapSet_of_not_mem (l : List (String × WindowState)) (k : String) (v : WindowState)
    (h : k ∉ l.map Prod.fst) : mapSet l k v = l ++ [(k, v)] := by
  induction l with
  | nil => rfl
  | cons p rest ih =>
    simp only [List.map_cons, List.mem_cons] at h
    push_neg at h
    have hne : p.1 ≠ k := fun hh => h.1 hh.symm
    simp [mapSet, hne, ih h.2]

lemma length_mapSet (l : List (String × WindowState)) (k : String) (v : WindowState) :
    (mapSet l k v).length = if k ∈ l.map Prod.fst then l.length else l.length + 1 := by
  induction l with
  | nil => simp [mapSet]
  | cons p rest ih =>
    by_cases hp : p.1 = k
    · simp [mapSet, hp]
    · simp only [mapSet, if_neg hp, List.length_cons, List.map_cons, List.mem_cons, ih]
      by_cases hk : k ∈ rest.map Prod.fst
      · simp [hk]
      · have hne : k ≠ p.1 := fun hh => hp hh.symm
        simp [hk, hne]

lemma mapDelete_of_not_mem (l : List (String × WindowState)) (k : String)
    (h : k ∉ l.map Prod.fst) : mapDelete l k = l := by
  induction l with
  | nil => rfl
  | cons p rest ih =>
    simp only [List.map_cons, List.mem_cons] at h
    push_neg at h
    have hne : p.1 ≠ k := fun hh => h.1 hh.symm
    simp [mapDelete, hne, ih h.2]

lemma length_mapDelete (l : List (String × WindowState)) (k : String) :
    (mapDelete l k).length = if k ∈ l.map Prod.fst then l.length - 1 else l.length := by
  induction l with
  | nil => simp [mapDelete]
  | cons p rest ih =>
    by_cases hp : p.1 = k
    · simp [mapDelete, hp]
    · simp only [mapDelete, if_neg hp, List.length_cons, List.map_cons, List.mem_cons, ih]
      by_cases hk : k ∈ rest.map Prod.fst
      · have hlen : 1 ≤ rest.length := by
          rcases List.mem_map.mp hk with ⟨q, hq, _⟩
          exact List.length_pos.mpr (List.ne_nil_of_mem hq)
        simp [hk]
        omega
      · have hne : k ≠ p.1 := fun hh => hp hh.symm
        simp [hk, hne]

lemma mem_map_fst_mapDelete (l : List (String × WindowState)) (k k2 : String)
    (h : k2 ∈ (mapDelete l k).map Prod.fst) : k2 ∈ l.map Prod.fst := by
  induction l with
  | nil =>
    simp [mapDelete] at h
  | cons p rest ih =>
    by_cases hp : p.1 = k
    · rw [show mapDelete (p :: rest) k = rest by simp [mapDelete, hp]] at h
      simp [h]
    · rw [show mapDelete (p :: rest) k = p :: mapDelete rest k by simp [mapDelete, hp]] at h
      simp only [List.map_cons, List.mem_cons] at h ⊢
      rcases h with h | h
      · exact Or.inl h
      · exact Or.inr (ih h)

lemma not_mem_map_fst_mapDelete (l : List (String × WindowState)) (k : String)
    (hnd : (l.map Prod.fst).Nodup) : k ∉ (mapDelete l k).map Prod.fst := by
  induction l with
  | nil => simp [mapDelete]
  | cons p rest ih =>
    simp only [List.map_cons, List.nodup_cons] at hnd
    by_cases hp : p.1 = k
    · rw [show mapDelete (p :: rest) k = rest by simp [mapDelete, hp]]
      rw [← hp]
      exact hnd.1
    · rw [show mapDelete (p :: rest) k = p :: mapDelete rest k by simp [mapDelete, hp]]
      simp only [List.map_cons, List.mem_cons]
      push_neg
      exact ⟨fun hh => hp hh.symm, ih hnd.2⟩

lemma mem_map_fst_mapSet (l : List (String × WindowState)) (k k2 : String) (v : WindowState)
    (h : k2 ∈ (mapSet l k v).map Prod.fst) : k2 ∈ l.map Prod.fst ∨ k2 = k := by
  induction l with
  | nil => simpa [mapSet] using h
  | cons p rest ih =>
    by_cases hp : p.1 = k
    · rw [show mapSet (p :: rest) k v = (k, v) :: rest by simp [mapSet, hp]] at h
      simp only [List.map_cons, List.mem_cons] at h ⊢
      rcases h with h | h
      · exact Or.inr h
      · exact Or.inl (Or.inr h)
    · rw [show mapSet (p :: rest) k v = p :: mapSet rest k v by simp [mapSet, hp]] at h
      simp only [List.map_cons, List.mem_cons] at h ⊢
      rcases h with h | h
      · exact Or.inl (Or.inl h)
      · rcases ih h with h2 | h2
        · exact Or.inl (Or.inr h2)
        · exact Or.inr h2

lemma mapGet_mapUpdate_self (l : List (String × WindowState)) (k : String)
    (f : WindowState → WindowState) :
    mapGet (mapUpdate l k f) k = (mapGet l k).map f := by
  induction l with
  | nil => simp [mapUpdate, mapGet]
  | cons p rest ih =>
    by_cases hp : p.1 = k
    · simp [mapUpdate, mapGet, hp]
    · simp [mapUpdate, mapGet, hp, ih]

lemma mapGet_mapUpdate_other (l : List (String × WindowState)) (k k2 : String)
    (f : WindowState → WindowState) (h : k2 ≠ k) :
    mapGet (mapUpdate l k f) k2 = mapGet l k2 := by
  induction l with
  | nil => simp [mapUpdate]
  | cons p rest ih =>
    by_cases hp : p.1 = k
    · subst hp
      have hne : p.1 ≠ k2 := fun hh => h hh.symm
      simp [mapUpdate, mapGet, hne]
    · simp only [mapUpdate, if_neg hp]
      by_cases hp2 : p.1 = k2
      · simp [mapGet, hp2]
      · simp [mapGet, hp2, ih]

lemma length_mapUpdate (l : List (String × WindowState)) (k : String)
    (f : WindowState → WindowState) : (mapUpdate l k f).length = l.length := by
  induction l with
  | nil => rfl
  | cons p rest ih =>
    by_cases hp : p.1 = k
    · simp [mapUpdate, hp]
    · simp [mapUpdate, hp, ih]

lemma mapGet_repositionGo_manual (w h : Int) (i : Nat) (b : Int)
    (l : List (String × WindowState)) (k : String) (st : WindowState)
    (hget : mapGet l k = some st) (hman : st.manualPos.isSome) :
    mapGet (repositionGo w h i b l) k = some st := by
  induction l generalizing i b with
  | nil => simp [mapGet] at hget
  | cons p rest ih =>
    by_cases hp : p.1 = k
    · have hst : p.2 = st := by
        have hh := hget
        rw [show mapGet (p :: rest) k = some p.2 by simp [mapGet, hp]] at hh
        injection hh
      simp [repositionGo, hst, hman, mapGet, hp]
    · have hrest : mapGet rest k = some st := by
        have hh := hget
        rw [show mapGet (p :: rest) k = mapGet rest k by simp [mapGet, hp]] at hh
        exact hh
      by_cases hm : p.2.manualPos.isSome
      · simp [repositionGo, hm, mapGet, hp, ih i b hrest]
      · simp [repositionGo, hm, mapGet, hp, ih (i + 1) (b + p.2.currentHeight) hrest]

lemma mapGet_repositionGo_height (w h : Int) (i : Nat) (b : Int)
    (l : List (String × WindowState)) (k : String) :
    (mapGet (repositionGo w h i b l) k).map WindowState.currentHeight =
      (mapGet l k).map WindowState.currentHeight := by
  induction l generalizing i b with
  | nil => rfl
  | cons p rest ih =>
    by_cases hm : p.2.manualPos.isSome
    · by_cases hp : p.1 = k
      · simp [repositionGo, hm, mapGet, hp]
      · simp [repositionGo, hm, mapGet, hp, ih]
    · by_cases hp : p.1 = k
      · simp [repositionGo, hm, mapGet, hp]
      · simp [repositionGo, hm, mapGet, hp, ih]

lemma repositionGo_idem (w h : Int) (i : Nat) (b : Int) (l : List (String × WindowState)) :
    repositionGo w h i b (repositionGo w h i b l) = repositionGo w h i b l := by
  induction l generalizing i b with
  | nil => rfl
  | cons p rest ih =>
    by_cases hm : p.2.manualPos.isSome
    · simp [repositionGo, hm, ih]
    · simp [repositionGo, hm, ih]

-- ===========================================================================
-- Concrete fixtures used by witnesses and counterexamples
-- ===========================================================================

/-- A plain auto-positioned window state used to build concrete registries. -/
def sampleState (k : String) : WindowState :=
  { winPos := (0, 0), winSize := (494, 160), channelId := k, authorName := "n",
    authorAvatar := "a", messages := [], lastTimestamp := 0, currentHeight := 160,
    manualPos := none }

/-- A concrete two-entry registry on a 1920 by 1080 work area. -/
def sampleRegistry : Registry :=
  { activeWindows := [("A", sampleState "A"), ("B", sampleState "B")],
    lastDraggedPos := none, workW := 1920, workH := 1080 }

-- ===========================================================================
-- Claim C7: closeNotification idempotence
-- ===========================================================================

/-- C7: with the registry keys unique (a `Map` invariant), closing the same
conversation id twice is idempotent — the second call changes nothing, so
registry state and the remaining windows' positions after the second call
equal those after the first — and a close for an id that is not in the
registry removes nothing (it only re-runs the layout pass, which on an
already-laid-out registry is the identity, by the idempotence just proved). -/
theorem c7_close_idempotent (s : Registry) (id : String)
    (hnd : (s.activeWindows.map Prod.fst).Nodup) :
    closeNotification (closeNotification s id) id = closeNotification s id ∧
    (mapGet s.activeWindows id = none → closeNotification s id = repositionWindows s) := by
  constructor
  · have h1 : id ∉ (repositionGo s.workW s.workH 0 0 (mapDelete s.activeWindows id)).map
        Prod.fst := by
      rw [map_fst_repositionGo]
      exact not_mem_map_fst_mapDelete _ _ hnd
    show closeNotification (closeNotification s id) id = closeNotification s id
    unfold closeNotification repositionWindows
    simp only
    rw [mapDelete_of_not_mem _ _ h1, repositionGo_idem]
  · intro hnone
    unfold closeNotification
    rw [mapDelete_of_not_mem _ _ ((mapGet_eq_none_iff _ _).mp hnone)]

/-- Witness for C7: a double close of "B" on a concrete registry equals the
single close, and closing the absent id "Z" only re-runs the layout pass. -/
theorem c7_close_idempotent_witness :
    closeNotification (closeNotification sampleRegistry "B") "B" =
      closeNotification sampleRegistry "B" ∧
    closeNotification sampleRegistry "Z" = repositionWindows sampleRegistry :=
  ⟨(c7_close_idempotent sampleRegistry "B" (by decide)).1,
   (c7_close_idempotent sampleRegistry "Z" (by decide)).2 (by decide)⟩

-- ===========================================================================
-- Claim C5: resize clamping and the no-op path
-- ===========================================================================

lemma handleResize_stored (s : Registry) (id : String) (v : JsVal) (st : WindowState)
    (hid : id ≠ "") (hget : mapGet s.activeWindows id = some st) :
    (mapGet (handleResize s id v).1.activeWindows id).map WindowState.currentHeight =
      some (normalizeRequestedHeight v) := by
  unfold handleResize
  rw [if_neg hid, hget]
  by_cases he : st.currentHeight = normalizeRequestedHeight v
  · simp only [if_pos he]
    simp [hget, ← he]
  · simp only [if_neg he]
    show (mapGet (repositionWindows _).activeWindows id).map WindowState.currentHeight = _
    unfold repositionWindows
    simp only
    rw [mapGet_repositionGo_height, mapGet_mapUpdate_self, hget]
    simp

/-- C5 amended: with an overlay registered for a non-empty `id` (the
empty-string id is dropped by the handler's JS truthiness guard before the
lookup — see the counterexample), a resize request whose numeric value is
below WINDOW_MIN_HEIGHT stores exactly WINDOW_MIN_HEIGHT and one above
WINDOW_MAX_HEIGHT stores exactly WINDOW_MAX_HEIGHT; a request whose
normalized (ceiled, clamped) height equals the entry's current height is a
complete no-op — the state (stored height, window size, every window's
position) is returned unchanged and the layout-pass flag is false. -/
theorem c5_resize_clamp_noop (s : Registry) (id : String) (v : JsVal) (st : WindowState)
    (q : ℚ) (hid : id ≠ "") (hget : mapGet s.activeWindows id = some st) :
    (toNumber v = JsNum.finite q → q < 160 →
      (mapGet (handleResize s id v).1.activeWindows id).map WindowState.currentHeight =
        some WINDOW_MIN_HEIGHT) ∧
    (toNumber v = JsNum.finite q → 420 < q →
      (mapGet (handleResize s id v).1.activeWindows id).map WindowState.currentHeight =
        some WINDOW_MAX_HEIGHT) ∧
    (normalizeRequestedHeight v = st.currentHeight → handleResize s id v = (s, false)) := by
  refine ⟨fun hv hq => ?_, fun hv hq => ?_, fun he => ?_⟩
  · rw [handleResize_stored s id v st hid hget, normalize_of_low v q hv hq]
  · rw [handleResize_stored s id v st hid hget, normalize_of_high v q hv hq]
  · unfold handleResize
    rw [if_neg hid, hget]
    simp [he]

/-- Witness for C5 on a concrete registry whose "A" entry has height 160: a
request of 100 stores the minimum 160 (and, equalling the current height, is a
no-op), and a request of 500 stores the maximum 420. -/
theorem c5_resize_clamp_noop_witness :
    (mapGet (handleResize sampleRegistry "A" (JsVal.num (JsNum.finite 100))).1.activeWindows
        "A").map WindowState.currentHeight = some WINDOW_MIN_HEIGHT ∧
    (mapGet (handleResize sampleRegistry "A" (JsVal.num (JsNum.finite 500))).1.activeWindows
        "A").map WindowState.currentHeight = some WINDOW_MAX_HEIGHT ∧
    handleResize sampleRegistry "A" (JsVal.num (JsNum.finite 100)) = (sampleRegistry, false) := by
  have hget : mapGet sampleRegistry.activeWindows "A" = some (sampleState "A") := by decide
  have h100 := c5_resize_clamp_noop sampleRegistry "A" (JsVal.num (JsNum.finite 100))
    (sampleState "A") 100 (by decide) hget
  have h500 := c5_resize_clamp_noop sampleRegistry "A" (JsVal.num (JsNum.finite 500))
    (sampleState "A") 500 (by decide) hget
  refine ⟨h100.1 rfl (by norm_num), h500.2.1 rfl (by norm_num), h100.2.2 ?_⟩
  rw [normalize_of_low (JsVal.num (JsNum.finite 100)) 100 rfl (by norm_num)]
  rfl

/-- Registry holding one overlay under the empty-string key (height 160), a
state reachable by showNotification for a message whose channel id is the
empty string. -/
def emptyKeyRegistry : Registry :=
  { activeWindows := [("", sampleState "")], lastDraggedPos := none,
    workW := 1920, workH := 1080 }

/-- C5 counterexample: with an overlay registered under the empty-string key,
a resize request for id "" asking for height 500 — above WINDOW_MAX_HEIGHT —
is dropped by the handler's falsy-id guard (`key ? activeWindows.get(key) :
undefined`): the state comes back unchanged with no layout pass, and the
stored height stays 160 rather than becoming WINDOW_MAX_HEIGHT (420) as the
claim requires of every above-maximum request. -/
theorem c5_ce_empty_id_ignored :
    handleResize emptyKeyRegistry "" (JsVal.num (JsNum.finite 500)) =
      (emptyKeyRegistry, false) ∧
    (mapGet emptyKeyRegistry.activeWindows "").map WindowState.currentHeight = some 160 ∧
    (160 : Int) ≠ WINDOW_MAX_HEIGHT := by
  refine ⟨by decide, by decide, by decide⟩

-- ===========================================================================
-- Claim C2: manual drag, pinning, and inheritance by new windows
-- ===========================================================================

/-- Notification used to open conversation B in the drag scenario. -/
def dragDataB : NotificationData :=
  { id := "B", authorId := some "u1", authorName := "Bea", authorAvatar := "av",
    content := "hi", channelId := "B", timestamp := 111, messageId := some "m1" }

/-- Notification that then opens conversation C in the drag scenario. -/
def dragDataC : NotificationData :=
  { dragDataB with id := "C", channelId := "C", messageId := some "m2", content := "yo" }

/-- End state of the drag scenario: open B, drag B to (100, 200), then a
message for the new conversation C arrives. -/
def dragScenarioFinal : Registry :=
  showNotification
    (updateDraggedPosition (showNotification (emptyRegistry 1920 1080) dragDataB 111)
      "B" (100, 200))
    dragDataC 222

/-- C2 counterexample: in the concrete drag scenario, the overlay newly
created for conversation C after B was dragged to (100, 200) carries a manual
override of its own — inherited from the process-wide last-dragged position —
and sits at (100, 200), not at the stacked-layout slot (1406, 900) that the
claim prescribes for an overlay "with no override of its own". -/
theorem c2_ce_new_window_inherits_override :
    (mapGet dragScenarioFinal.activeWindows "C").map
        (fun st => (st.manualPos, st.winPos)) = some (some (100, 200), (100, 200)) ∧
    (some ((100 : Int), (200 : Int)) ≠ (none : Option (Int × Int))) ∧
    (((100 : Int), (200 : Int)) ≠ ((1406 : Int), (900 : Int))) := by
  refine ⟨by decide, by decide, by decide⟩

/-- C2 amended: after the user drags B's window to `p`, B is pinned — a later
upsert that creates a window for a different, absent conversation (below
capacity, so no eviction) leaves B's entry exactly at `p` with its override —
but the newly created entry does not get a fresh stacked position: it inherits
the process-wide last-dragged position `p` as its own manual override and is
created at `p`, exempt from automatic repositioning.  Only windows that
existed before the drag without an override keep following the stack layout. -/
theorem c2_drag_pins_and_inherits (s : Registry) (bKey : String) (stB : WindowState)
    (p : Int × Int) (data : NotificationData) (now : Int)
    (hB : mapGet s.activeWindows bKey = some stB)
    (hC : mapGet s.activeWindows data.channelId = none)
    (hne : data.channelId ≠ bKey)
    (hcap : s.activeWindows.length < MAX_OVERLAY_WINDOWS) :
    mapGet (showNotification (updateDraggedPosition s bKey p) data now).activeWindows bKey =
      some { stB with manualPos := some p, winPos := p } ∧
    (mapGet (showNotification (updateDraggedPosition s bKey p) data now).activeWindows
        data.channelId).map (fun st => (st.manualPos, st.winPos)) = some (some p, p) := by
  have hld : (updateDraggedPosition s bKey p).lastDraggedPos = some p := rfl
  have hB1 : mapGet (updateDraggedPosition s bKey p).activeWindows bKey =
      some { stB with manualPos := some p, winPos := p } := by
    show mapGet (mapUpdate s.activeWindows bKey _) bKey = _
    rw [mapGet_mapUpdate_self, hB]
    rfl
  have hC1 : mapGet (updateDraggedPosition s bKey p).activeWindows data.channelId = none := by
    show mapGet (mapUpdate s.activeWindows bKey _) data.channelId = none
    rw [mapGet_mapUpdate_other _ _ _ _ hne, hC]
  have hlen : (updateDraggedPosition s bKey p).activeWindows.length =
      s.activeWindows.length := by
    show (mapUpdate s.activeWindows bKey _).length = _
    rw [length_mapUpdate]
  have hnotge : ¬ (updateDraggedPosition s bKey p).activeWindows.length ≥
      MAX_OVERLAY_WINDOWS := by
    rw [hlen]
    omega
  unfold showNotification
  simp only [hC1, if_neg hnotge, hld, Option.getD_some]
  unfold repositionWindows
  simp only
  constructor
  · apply mapGet_repositionGo_manual
    · rw [mapGet_mapSet_other _ _ _ _ (fun hh => hne hh.symm)]
      exact hB1
    · rfl
  · rw [mapGet_repositionGo_manual _ _ _ _ _ _ _ (mapGet_mapSet_self _ _ _) (by rfl)]
    rfl

/-- Registry state of conversation B just after its overlay opens (before the
drag) in the drag scenario. -/
def dragStateB : WindowState :=
  { winPos := (1406, 900), winSize := (494, 160), channelId := "B", authorName := "Bea",
    authorAvatar := "av", messages := [{ id := "m1", content := "hi", timestamp := 111 }],
    lastTimestamp := 111, currentHeight := 160, manualPos := none }

/-- Witness for the amended C2 theorem on the concrete drag scenario: B stays
pinned at (100, 200) with its override, and the new C entry inherits the
override and position. -/
theorem c2_drag_pins_and_inherits_witness :
    mapGet dragScenarioFinal.activeWindows "B" =
      some { dragStateB with manualPos := some (100, 200), winPos := (100, 200) } ∧
    (mapGet dragScenarioFinal.activeWindows "C").map
        (fun st => (st.manualPos, st.winPos)) = some (some (100, 200), (100, 200)) :=
  c2_drag_pins_and_inherits (showNotification (emptyRegistry 1920 1080) dragDataB 111)
    "B" dragStateB (100, 200) dragDataC 222 (by decide) (by decide) (by decide) (by decide)

-- ===========================================================================
-- Claim C1: capacity bound and eviction
-- ===========================================================================

lemma mem_of_mapGet_ne_none (l : List (String × WindowState)) (k : String)
    (h : mapGet l k ≠ none) : k ∈ l.map Prod.fst := by
  by_contra hmem
  exact h ((mapGet_eq_none_iff l k).mpr hmem)

lemma showNotification_inv (s : Registry) (data : NotificationData) (now : Int)
    (hkeys : ∀ k ∈ s.activeWindows.map Prod.fst, k ≠ "")
    (hlen : s.activeWindows.length ≤ MAX_OVERLAY_WINDOWS)
    (hch : data.channelId ≠ "") :
    (∀ k ∈ (showNotification s data now).activeWindows.map Prod.fst, k ≠ "") ∧
    (showNotification s data now).activeWindows.length ≤ MAX_OVERLAY_WINDOWS := by
  obtain ⟨aw, ld, w, h⟩ := s
  simp only at hkeys hlen ⊢
  unfold showNotification
  simp only
  cases hget : mapGet aw data.channelId with
  | some st =>
    simp only [hget]
    unfold repositionWindows
    simp only
    have hmem : data.channelId ∈ aw.map Prod.fst :=
      mem_of_mapGet_ne_none _ _ (by rw [hget]; exact fun hh => Option.noConfusion hh)
    have hpos : 1 ≤ aw.length := by
      rcases List.mem_map.mp hmem with ⟨q, hq, _⟩
      exact List.length_pos.mpr (List.ne_nil_of_mem hq)
    constructor
    · intro k hk
      rw [map_fst_repositionGo] at hk
      rcases mem_map_fst_mapSet _ _ _ _ hk with hk2 | hk2
      · exact hkeys k (mem_map_fst_mapDelete _ _ _ hk2)
      · rw [hk2]; exact hch
    · rw [length_repositionGo, length_mapSet, length_mapDelete]
      by_cases hmem2 : data.channelId ∈ (mapDelete aw data.channelId).map Prod.fst
      · simp only [if_pos hmem2, if_pos hmem]
        omega
      · simp only [if_neg hmem2, if_pos hmem]
        omega
  | none =>
    simp only [hget]
    by_cases hge : aw.length ≥ MAX_OVERLAY_WINDOWS
    · -- at capacity: the oldest (first) entry is evicted, its key is nonempty
      cases aw with
      | nil =>
        simp only [List.length_nil, MAX_OVERLAY_WINDOWS] at hge
        omega
      | cons p rest =>
        have hp1 : p.1 ≠ "" := hkeys p.1 (by simp)
        rw [if_pos hge]
        simp only [List.head?_cons]
        rw [if_neg hp1]
        unfold closeNotification repositionWindows
        simp only [show mapDelete (p :: rest) p.1 = rest by simp [mapDelete]]
        have hkeys1 : ∀ k ∈ (repositionGo w h 0 0 rest).map Prod.fst, k ≠ "" := by
          intro k hk
          rw [map_fst_repositionGo] at hk
          exact hkeys k (by simp [hk])
        constructor
        · intro k hk
          rw [map_fst_repositionGo] at hk
          rcases mem_map_fst_mapSet _ _ _ _ hk with hk2 | hk2
          · exact hkeys1 k hk2
          · rw [hk2]; exact hch
        · rw [length_repositionGo, length_mapSet]
          have hlen5 : rest.length + 1 ≤ MAX_OVERLAY_WINDOWS := by simpa using hlen
          by_cases hm : data.channelId ∈ (repositionGo w h 0 0 rest).map Prod.fst
          · rw [if_pos hm, length_repositionGo]
            omega
          · rw [if_neg hm, length_repositionGo]
            omega
    · -- below capacity: no eviction, the new entry is appended
      rw [if_neg hge]
      unfold repositionWindows
      simp only
      constructor
      · intro k hk
        rw [map_fst_repositionGo] at hk
        rcases mem_map_fst_mapSet _ _ _ _ hk with hk2 | hk2
        · exact hkeys k hk2
        · rw [hk2]; exact hch
      · rw [length_repositionGo, length_mapSet]
        by_cases hm : data.channelId ∈ aw.map Prod.fst
        · rw [if_pos hm]
          omega
        · rw [if_neg hm]
          omega

lemma runUpserts_inv (evs : List (NotificationData × Int)) :
    ∀ s : Registry, (∀ k ∈ s.activeWindows.map Prod.fst, k ≠ "") →
      s.activeWindows.length ≤ MAX_OVERLAY_WINDOWS →
      (∀ e ∈ evs, e.1.channelId ≠ "") →
      (∀ k ∈ (runUpserts s evs).activeWindows.map Prod.fst, k ≠ "") ∧
      (runUpserts s evs).activeWindows.length ≤ MAX_OVERLAY_WINDOWS := by
  induction evs with
  | nil =>
    intro s h1 h2 _
    exact ⟨h1, h2⟩
  | cons e evs ih =>
    intro s h1 h2 hall
    have hstep := showNotification_inv s e.1 e.2 h1 h2 (hall e (by simp))
    have htail : ∀ e2 ∈ evs, e2.1.channelId ≠ "" := fun e2 he2 => hall e2 (by simp [he2])
    have hrec := ih (showNotification s e.1 e.2) hstep.1 hstep.2 htail
    simpa only [runUpserts, List.foldl_cons] using hrec

/-- C1 amended: starting from an empty registry, for every sequence of
showNotification calls in which each conversation key is a non-empty string
the registry never exceeds MAX_OVERLAY_WINDOWS entries; and whenever an upsert
arrives for an absent key while the registry holds exactly
MAX_OVERLAY_WINDOWS entries whose keys are all non-empty, the entry first in
iteration order is closed and removed and the new entry appended, so the key
sequence becomes the old one minus its head plus the new key at the end.  (The
non-empty proviso is forced by the JS truthiness eviction guard; see the
counterexample.) -/
theorem c1_capacity_bound_and_eviction :
    (∀ (evs : List (NotificationData × Int)) (w h : Int),
      (∀ e ∈ evs, e.1.channelId ≠ "") →
      (runUpserts (emptyRegistry w h) evs).activeWindows.length ≤ MAX_OVERLAY_WINDOWS) ∧
    (∀ (s : Registry) (data : NotificationData) (now : Int),
      (∀ k ∈ s.activeWindows.map Prod.fst, k ≠ "") →
      mapGet s.activeWindows data.channelId = none →
      s.activeWindows.length = MAX_OVERLAY_WINDOWS →
      (showNotification s data now).activeWindows.map Prod.fst =
        (s.activeWindows.map Prod.fst).drop 1 ++ [data.channelId]) := by
  constructor
  · intro evs w h hall
    exact (runUpserts_inv evs (emptyRegistry w h) (by simp [emptyRegistry])
      (by simp [emptyRegistry]) hall).2
  · intro s data now hkeys hget hlen5
    obtain ⟨aw, ld, w, h⟩ := s
    simp only at hkeys hget hlen5 ⊢
    unfold showNotification
    simp only [hget]
    have hge : aw.length ≥ MAX_OVERLAY_WINDOWS := by omega
    cases aw with
    | nil =>
      simp only [List.length_nil, MAX_OVERLAY_WINDOWS] at hlen5
      omega
    | cons p rest =>
      have hp1 : p.1 ≠ "" := hkeys p.1 (by simp)
      rw [if_pos hge]
      simp only [List.head?_cons]
      rw [if_neg hp1]
      unfold closeNotification repositionWindows
      simp only [show mapDelete (p :: rest) p.1 = rest by simp [mapDelete]]
      have hnot : data.channelId ∉ (repositionGo w h 0 0 rest).map Prod.fst := by
        rw [map_fst_repositionGo]
        intro hmem
        have : data.channelId ∈ (p :: rest).map Prod.fst := by simp [hmem]
        exact (mapGet_eq_none_iff _ _).mp hget this
      rw [map_fst_repositionGo, mapSet_of_not_mem _ _ _ hnot]
      simp only [List.map_append, map_fst_repositionGo, List.map_cons, List.map_nil,
        List.drop_succ_cons, List.drop_zero]

/-- A notification event with the given conversation key, used by the C1
scenarios. -/
def keyData (k : String) : NotificationData :=
  { id := k, authorId := none, authorName := "n", authorAvatar := "a",
    content := "c", channelId := k, timestamp := 5, messageId := some "m" }

/-- A registry already holding five overlays "a".."e" in iteration order. -/
def fiveRegistry : Registry :=
  { activeWindows := [("a", sampleState "a"), ("b", sampleState "b"), ("c", sampleState "c"),
      ("d", sampleState "d"), ("e", sampleState "e")],
    lastDraggedPos := none, workW := 1920, workH := 1080 }

/-- Witness for the amended C1 theorem: a six-upsert run with non-empty keys
stays within the bound, and an upsert on the full five-entry registry evicts
"a" (the first key) and appends "g". -/
theorem c1_capacity_bound_and_eviction_witness :
    (runUpserts (emptyRegistry 1920 1080)
      [(keyData "a", 1), (keyData "b", 2), (keyData "c", 3), (keyData "d", 4),
       (keyData "e", 5), (keyData "f", 6)]).activeWindows.length ≤ MAX_OVERLAY_WINDOWS ∧
    (showNotification fiveRegistry (keyData "g") 0).activeWindows.map Prod.fst =
      (fiveRegistry.activeWindows.map Prod.fst).drop 1 ++ ["g"] :=
  ⟨c1_capacity_bound_and_eviction.1
      [(keyData "a", 1), (keyData "b", 2), (keyData "c", 3), (keyData "d", 4),
       (keyData "e", 5), (keyData "f", 6)] 1920 1080 (by decide),
   c1_capacity_bound_and_eviction.2 fiveRegistry (keyData "g") 0
      (by decide) (by decide) (by decide)⟩

/-- C1 counterexample: a sequence of six showNotification calls whose first
conversation key is the empty string.  When the sixth upsert arrives the
registry holds five entries, but the eviction guard `if (oldest)` is falsy on
the empty-string key, so nothing is evicted and the registry grows to six
entries — more than MAX_OVERLAY_WINDOWS. -/
theorem c1_ce_empty_key_exceeds_capacity :
    (runUpserts (emptyRegistry 1920 1080)
      [(keyData "", 1), (keyData "a", 2), (keyData "b", 3), (keyData "c", 4),
       (keyData "d", 5), (keyData "e", 6)]).activeWindows.length = 6 ∧
    MAX_OVERLAY_WINDOWS < 6 := by
  refine ⟨by decide, by decide⟩

-- ===========================================================================
-- Claim C3: the layout pass
-- ===========================================================================

lemma autoHeight_append (a b : List (String × WindowState)) :
    autoHeight (a ++ b) = autoHeight a + autoHeight b := by
  induction a with
  | nil => simp [autoHeight]
  | cons p rest ih => simp [autoHeight, ih]; ring

lemma autoCount_append (a b : List (String × WindowState)) :
    autoCount (a ++ b) = autoCount a + autoCount b := by
  induction a with
  | nil => simp [autoCount]
  | cons p rest ih => simp [autoCount, ih]; ring

lemma autoHeight_nonneg (l : List (String × WindowState))
    (hpos : ∀ p ∈ l, WINDOW_MIN_HEIGHT ≤ p.2.currentHeight) : 0 ≤ autoHeight l := by
  induction l with
  | nil => simp [autoHeight]
  | cons p rest ih =>
    have h1 : WINDOW_MIN_HEIGHT ≤ p.2.currentHeight := hpos p (by simp)
    have h2 : 0 ≤ autoHeight rest := ih (fun q hq => hpos q (by simp [hq]))
    simp only [autoHeight, WINDOW_MIN_HEIGHT] at *
    by_cases hm : p.2.manualPos = none
    · simp only [if_pos hm]
      omega
    · simp only [if_neg hm]
      omega

lemma autoCount_nonneg (l : List (String × WindowState)) : 0 ≤ autoCount l := by
  induction l with
  | nil => simp [autoCount]
  | cons p rest ih =>
    simp only [autoCount]
    by_cases hm : p.2.manualPos = none
    · simp only [if_pos hm]; omega
    · simp only [if_neg hm]; omega

lemma repositionGo_getElem (w h : Int) (l : List (String × WindowState)) :
    ∀ (i : Nat) (b : Int) (j : Nat),
      (repositionGo w h i b l)[j]? = (l[j]?).map (fun p =>
        if p.2.manualPos.isSome then p
        else (p.1, { p.2 with winPos :=
          (w - WINDOW_WIDTH - WINDOW_MARGIN,
           h - WINDOW_MARGIN - (b + autoHeight (l.take j)) - p.2.currentHeight -
             ((i : Int) + autoCount (l.take j)) * WINDOW_SPACING) })) := by
  induction l with
  | nil => intro i b j; simp [repositionGo]
  | cons p rest ih =>
    intro i b j
    by_cases hm : p.2.manualPos.isSome
    · rw [show repositionGo w h i b (p :: rest) = p :: repositionGo w h i b rest by
        simp [repositionGo, hm]]
      cases j with
      | zero => simp [hm]
      | succ j =>
        have hne : ¬ p.2.manualPos = none := by
          simp [Option.isSome_iff_ne_none] at hm
          exact hm
        simp only [List.getElem?_cons_succ, ih i b j, List.take_succ_cons, autoHeight,
          autoCount, if_neg hne, zero_add]
    · rw [show repositionGo w h i b (p :: rest) =
          (p.1, { p.2 with winPos := getWindowPosition w h i p.2.currentHeight b }) ::
            repositionGo w h (i + 1) (b + p.2.currentHeight) rest by
        simp [repositionGo, hm]]
      have hz : p.2.manualPos = none := by
        simp [Option.isSome_iff_ne_none] at hm
        exact hm
      cases j with
      | zero =>
        simp [hm, getWindowPosition, List.take_zero, autoHeight, autoCount]
      | succ j =>
        simp only [List.getElem?_cons_succ, ih (i + 1) (b + p.2.currentHeight) j,
          List.take_succ_cons, autoHeight, autoCount, if_pos hz]
        cases hrj : rest[j]? with
        | none => simp
        | some q =>
          simp only [Option.map_some']
          by_cases hqm : q.2.manualPos.isSome
          · simp [hqm]
          · simp only [if_neg hqm]
            obtain ⟨k2, st2⟩ := q
            cases st2
            simp only [Option.some.injEq, Prod.mk.injEq, WindowState.mk.injEq, true_and,
              and_true]
            push_cast
            ring

/-- C3 amended: a layout pass walks the registry in Map iteration order —
least-recently-updated first, so the most-recently-updated entry (last in
iteration order) receives the largest offset and ends topmost.  Every entry
without a manual override at walk position j is assigned
x = workAreaWidth - WINDOW_WIDTH - WINDOW_MARGIN and
y = workAreaHeight - WINDOW_MARGIN - (accumulated heights of the
auto-positioned entries before it) - its own height - (auto slot count before
it) * WINDOW_SPACING; entries with an override are returned untouched and
contribute nothing to the accumulated height or slot count; and for two
auto-positioned entries the accumulated-height offset strictly increases along
the walk (heights being at least WINDOW_MIN_HEIGHT), so offsets are
monotonically increasing in iteration order. -/
theorem c3_layout_pass (s : Registry) (j : Nat) (k : String) (st : WindowState)
    (hj : s.activeWindows[j]? = some (k, st)) :
    ((repositionWindows s).activeWindows.length = s.activeWindows.length) ∧
    (st.manualPos.isSome → (repositionWindows s).activeWindows[j]? = some (k, st)) ∧
    (st.manualPos = none → (repositionWindows s).activeWindows[j]? = some (k,
      { st with winPos := (s.workW - WINDOW_WIDTH - WINDOW_MARGIN,
          s.workH - WINDOW_MARGIN - autoHeight (s.activeWindows.take j) - st.currentHeight -
            autoCount (s.activeWindows.take j) * WINDOW_SPACING) })) ∧
    (∀ (j2 : Nat) (k2 : String) (st2 : WindowState),
      s.activeWindows[j2]? = some (k2, st2) → j < j2 →
      st.manualPos = none → st2.manualPos = none →
      (∀ p ∈ s.activeWindows, WINDOW_MIN_HEIGHT ≤ p.2.currentHeight) →
      autoHeight (s.activeWindows.take j) + autoCount (s.activeWindows.take j) * WINDOW_SPACING
        < autoHeight (s.activeWindows.take j2) +
            autoCount (s.activeWindows.take j2) * WINDOW_SPACING) := by
  obtain ⟨aw, ld, w, h⟩ := s
  simp only at hj ⊢
  have hpos := repositionGo_getElem w h aw 0 0 j
  refine ⟨?_, ?_, ?_, ?_⟩
  · exact length_repositionGo _ _ _ _ _
  · intro hman
    show (repositionGo _ _ 0 0 _)[j]? = _
    rw [hpos, hj]
    simp [hman]
  · intro hman
    show (repositionGo _ _ 0 0 _)[j]? = _
    rw [hpos, hj]
    have hns : ¬ (k, st).2.manualPos.isSome := by simp [hman]
    simp only [Option.map_some', if_neg hns, Nat.cast_zero, zero_add]
  · intro j2 k2 st2 hj2 hlt hman hman2 hhts
    obtain ⟨hlen2, hget2⟩ := List.getElem?_eq_some.mp hj2
    have hsplit : aw.take j2 = aw.take j ++ (aw.take j2).drop j := by
      conv_lhs => rw [← List.take_append_drop j (aw.take j2)]
      rw [List.take_take, min_eq_left (Nat.le_of_lt hlt)]
    have hjlt : j < (aw.take j2).length := by
      rw [List.length_take]
      omega
    have hseg : (aw.take j2).drop j = (k, st) :: (aw.take j2).drop (j + 1) := by
      rw [List.drop_eq_getElem_cons hjlt]
      congr 1
      rw [List.getElem_take]
      obtain ⟨hh, he⟩ := List.getElem?_eq_some.mp hj
      exact he
    have h160 : WINDOW_MIN_HEIGHT ≤ st.currentHeight :=
      hhts (k, st) (List.getElem?_mem hj)
    have hsegh : 0 ≤ autoHeight ((aw.take j2).drop (j + 1)) :=
      autoHeight_nonneg _ (fun p hp => hhts p (List.take_subset _ _ (List.drop_subset _ _ hp)))
    have hsegc : 0 ≤ autoCount ((aw.take j2).drop (j + 1)) := autoCount_nonneg _
    rw [hsplit, autoHeight_append, autoCount_append, hseg]
    simp only [autoHeight, autoCount, if_pos hman]
    simp only [WINDOW_SPACING, WINDOW_MIN_HEIGHT] at *
    linarith

/-- Registry with one manually positioned entry followed by two automatic
ones of different heights. -/
def mixedRegistry : Registry :=
  { activeWindows := [("M", { sampleState "M" with manualPos := some (5, 6), winPos := (5, 6) }),
      ("A", sampleState "A"), ("B", { sampleState "B" with currentHeight := 200 })],
    lastDraggedPos := some (5, 6), workW := 1920, workH := 1080 }

/-- C3 counterexample: on a registry holding A then B (B most recently
updated, hence last in iteration order), the implemented layout pass walks A
first — A gets the bottom slot y = 900 and B stacks above at y = 730 — while a
pass that walks "most-recently-updated entry first", as the claim words it
(modelled by repositionWindowsSpecOrder), would give B the bottom slot
y = 900 and A the slot y = 730.  The two passes disagree on this registry. -/
theorem c3_ce_walk_order :
    (repositionWindows sampleRegistry).activeWindows.map (fun p => (p.1, p.2.winPos)) =
      [("A", (1406, 900)), ("B", (1406, 730))] ∧
    (repositionWindowsSpecOrder sampleRegistry).activeWindows.map (fun p => (p.1, p.2.winPos)) =
      [("A", (1406, 730)), ("B", (1406, 900))] ∧
    repositionWindows sampleRegistry ≠ repositionWindowsSpecOrder sampleRegistry := by
  refine ⟨by decide, by decide, by decide⟩

/-- Witness for the amended C3 theorem on a concrete registry with a manual
entry M and two auto entries A (height 160) and B (height 200): M is returned
untouched, A gets the corner slot (1406, 900) with M contributing nothing,
and the offset strictly grows from A to B. -/
theorem c3_layout_pass_witness :
    (repositionWindows mixedRegistry).activeWindows[0]? =
      some ("M", { sampleState "M" with manualPos := some (5, 6), winPos := (5, 6) }) ∧
    (repositionWindows mixedRegistry).activeWindows[1]? =
      some ("A", { sampleState "A" with winPos := (1406, 900) }) ∧
    autoHeight (mixedRegistry.activeWindows.take 1) +
        autoCount (mixedRegistry.activeWindows.take 1) * WINDOW_SPACING <
      autoHeight (mixedRegistry.activeWindows.take 2) +
        autoCount (mixedRegistry.activeWindows.take 2) * WINDOW_SPACING := by
  have hM := c3_layout_pass mixedRegistry 0 "M"
    ({ sampleState "M" with manualPos := some (5, 6), winPos := (5, 6) }) (by decide)
  have hA := c3_layout_pass mixedRegistry 1 "A" (sampleState "A") (by decide)
  refine ⟨hM.2.1 rfl, ?_, ?_⟩
  · have hc := hA.2.2.1 rfl
    rw [hc]
    decide
  · exact hA.2.2.2 2 "B" ({ sampleState "B" with currentHeight := 200 }) (by decide)
      (by decide) rfl rfl (by decide)
